import Mathlib

/-!
# Verification of the knowledge-decomposition pipeline

Shallow embedding of the deterministic core of
`backend/services/learning_path_pipeline.py` (batching, prerequisite
normalization, DAG validation, cycle detection, JSON extraction, meta-summary
compression dispatch) together with theorems checking the specification's
claims against it.

Conventions of the embedding:
* Python dicts that carry a fixed field set are Lean structures; optional
  dict keys are `Option` fields.
* Python sets used only for membership are Lean lists with membership.
* Python float literals `0.5` / `0.2` / `0.4` are modelled as the exact
  rationals `1/2`, `1/5`, `2/5` (all graph sizes reachable in practice make
  the float and rational comparisons agree).
* A Python function that can raise is an `Option`-returning function;
  `none` models an escaping exception.
-/

namespace LearningPath

/-- A normalized prerequisite edge, as produced by `_normalize_prerequisites`:
a dict with keys `node_id`, `relationship`, `reasoning`. -/
structure Prereq where
  node_id : String
  relationship : String
  reasoning : String
deriving DecidableEq, Repr

/-- A concept node as consumed by `_validate_pedagogical_soundness` and
`_detect_cycles`: dict keys `id`, `label`, `depth` (default 0) and
`prerequisites` (default `[]`, already normalized). -/
structure Node where
  id : String
  label : String
  depth : Int
  prerequisites : List Prereq
deriving DecidableEq, Repr

/-- `node_map = {n["id"]: n for n in nodes}` followed by `node_map.get(key)`:
building a dict lets a later duplicate id overwrite an earlier one, so the
lookup returns the last node bearing the id. -/
def lookupNode (nodes : List Node) (nid : String) : Option Node :=
  nodes.foldl (fun acc n => if n.id = nid then some n else acc) none

/-- `_create_batches`: `materials[i:i+batch_size]` for `i = 0, B, 2B, ...`.
Faithful to the Python slicing for every `batchSize ≥ 1` (Python raises
`ValueError` on a zero step, so `batchSize = 0` is outside the modelled
domain). -/
def createBatches (batchSize : Nat) : List α → List (List α)
  | [] => []
  | m :: rest =>
    (m :: rest.take (batchSize - 1)) :: createBatches batchSize (rest.drop (batchSize - 1))
termination_by l => l.length
decreasing_by simp [List.length_drop]; omega

/-- A raw prerequisite entry as the oracle may return it: a bare string
(legacy), a dict (with optional `node_id` / `id` / `relationship` /
`reasoning` keys), or anything else (a number, `null`, ...), which the
normalizer's `isinstance` chain ignores. -/
inductive RawPrereq where
  | str (s : String)
  | obj (node_id : Option String) (id : Option String)
        (relationship : Option String) (reasoning : Option String)
  | other
deriving DecidableEq, Repr

/-- `_normalize_prerequisites`: the loop appending one normalized dict per
string or dict entry, skipping anything else. -/
def normalizePrerequisites : List RawPrereq → List Prereq
  | [] => []
  | .str s :: rest =>
    { node_id := s
      relationship := "requires"
      reasoning := "Legacy prerequisite - relationship inferred" } :: normalizePrerequisites rest
  | .obj nid oid rel reas :: rest =>
    { node_id := nid.getD (oid.getD "")
      relationship := rel.getD "requires"
      reasoning := reas.getD "No reasoning provided" } :: normalizePrerequisites rest
  | .other :: rest => normalizePrerequisites rest

/-- Whether a raw entry is a bare string or an object (the entries the
normalizer keeps). -/
def RawPrereq.isStrOrObj : RawPrereq → Bool
  | .str _ => true
  | .obj _ _ _ _ => true
  | .other => false

/-- Modelled from the spec's words (§4.4), for the refinement statement only:
a bare string is shorthand for "this id, relationship=`requires`,
reasoning='Legacy prerequisite - relationship inferred'"; an object is mapped
field-for-field, accepting `node_id` or `id` as the target-node key and
defaulting `relationship` to `requires` and `reasoning` to
`'No reasoning provided'`. -/
def specNormalizeEntry : RawPrereq → Prereq
  | .str s =>
    { node_id := s
      relationship := "requires"
      reasoning := "Legacy prerequisite - relationship inferred" }
  | .obj nid oid rel reas =>
    { node_id := nid.getD (oid.getD "")
      relationship := rel.getD "requires"
      reasoning := reas.getD "No reasoning provided" }
  | .other =>
    { node_id := "", relationship := "", reasoning := "" }

/-- Re-embedding of a normalized prerequisite as the raw dict it is in
Python: all three keys present, no `id` key. -/
def Prereq.toRaw (p : Prereq) : RawPrereq :=
  .obj (some p.node_id) none (some p.relationship) (some p.reasoning)

/-- First index of `a` in `l` (Python `list.index`; returns `l.length` when
absent, a case the cycle recorder never reaches). -/
def listIndex (a : String) : List String → Nat
  | [] => 0
  | b :: rest => if b = a then 0 else listIndex a rest + 1

/-- The mutable state of `_detect_cycles`' depth-first search: the `visited`
and `rec_stack` sets and the accumulated list of cycle strings. -/
structure DfsState where
  visited : List String
  recStack : List String
  cycles : List String
deriving DecidableEq, Repr

/-- The inner `dfs` of `_detect_cycles`, with explicit state threading. The
`fuel` argument only forces termination; recursion depth is bounded by the
number of distinct ids plus one, so the fuel supplied by `detectCycles`
is never exhausted. The boolean the Python function returns is ignored by
every caller and is dropped. -/
def dfs (nodes : List Node) : Nat → String → List String → DfsState → DfsState
  | 0, _, _, s => s
  | fuel + 1, nid, path, s =>
    if nid ∈ s.recStack then
      { s with cycles :=
          s.cycles ++ [" -> ".intercalate (path.drop (listIndex nid path) ++ [nid])] }
    else if nid ∈ s.visited then s
    else
      let s1 : DfsState :=
        { s with visited := nid :: s.visited, recStack := nid :: s.recStack }
      let s2 : DfsState :=
        match lookupNode nodes nid with
        | none => s1
        | some n =>
          n.prerequisites.foldl
            (fun acc p =>
              if p.node_id ≠ "" then dfs nodes fuel p.node_id (path ++ [nid]) acc else acc)
            s1
      { s2 with recStack := s2.recStack.erase nid }

/-- `_detect_cycles`: run `dfs` from every not-yet-visited node id, in node
order, and return the accumulated cycle path strings. -/
def detectCycles (nodes : List Node) : List String :=
  let fuel := nodes.foldl (fun a n => a + 1 + n.prerequisites.length) 1
  (nodes.foldl
    (fun s n => if n.id ∈ s.visited then s else dfs nodes fuel n.id [] s)
    ⟨[], [], []⟩).cycles

/-- One validator warning. Each constructor carries exactly the data the
corresponding Python f-string interpolates; the surrounding fixed text is
presentation only. -/
inductive Warning where
  | circular (cycles : List String)
  | dangling (nodeId : String) (prereqId : String)
  | depthViolation (label : String) (depth : Int) (prereqLabel : String) (prereqDepth : Int)
  | lowRequires (pct : ℚ)
  | highRelated (pct : ℚ)
  | missingReasoning (count : Nat)
deriving DecidableEq, Repr

/-- Whether a warning is the cycle warning (check 1). -/
def Warning.isCircular : Warning → Bool
  | .circular _ => true
  | _ => false

/-- Whether a warning is a dangling-reference warning (check 2). -/
def Warning.isDangling : Warning → Bool
  | .dangling _ _ => true
  | _ => false

/-- Whether a warning is a depth-violation warning (check 3). -/
def Warning.isDepthViolation : Warning → Bool
  | .depthViolation _ _ _ _ => true
  | _ => false

/-- Check 1 of `_validate_pedagogical_soundness`: one warning carrying the
first three detected cycles, when any exist. -/
def circularWarnings (nodes : List Node) : List Warning :=
  if detectCycles nodes = [] then [] else [.circular ((detectCycles nodes).take 3)]

/-- Check 2's per-edge test: a warning for a (truthy, i.e. non-empty)
`node_id` that is not the id of any node. -/
def danglingCheck (nodes : List Node) (n : Node) (p : Prereq) : Option Warning :=
  if p.node_id ≠ "" ∧ (∀ m ∈ nodes, m.id ≠ p.node_id) then
    some (.dangling n.id p.node_id)
  else none

/-- Check 2: one warning per prerequisite with a truthy dangling
`node_id`. -/
def danglingWarnings (nodes : List Node) : List Warning :=
  nodes.flatMap fun n => n.prerequisites.filterMap (danglingCheck nodes n)

/-- Check 3's per-edge test: a warning for a `requires` prerequisite that
resolves in the node map with prerequisite depth `>=` the dependent's
depth. -/
def depthCheck (nodes : List Node) (n : Node) (p : Prereq) : Option Warning :=
  match lookupNode nodes p.node_id with
  | none => none
  | some m =>
    if p.relationship = "requires" ∧ n.depth ≤ m.depth then
      some (.depthViolation n.label n.depth m.label m.depth)
    else none

/-- Check 3: one warning per resolving `requires` prerequisite whose depths
are not strictly increasing. -/
def depthWarnings (nodes : List Node) : List Warning :=
  nodes.flatMap fun n => n.prerequisites.filterMap (depthCheck nodes n)

/-- All prerequisite edges over which check 4 counts, in iteration order. -/
def allPrereqs (nodes : List Node) : List Prereq :=
  nodes.flatMap fun n => n.prerequisites

/-- `total_rels` of check 4: every prerequisite edge, whatever its type. -/
def totalRels (nodes : List Node) : Nat :=
  (allPrereqs nodes).length

/-- `rel_counts["requires"]` of check 4. -/
def requiresCount (nodes : List Node) : Nat :=
  (allPrereqs nodes).countP fun p => p.relationship = "requires"

/-- `rel_counts["related"]` of check 4. -/
def relatedCount (nodes : List Node) : Nat :=
  (allPrereqs nodes).countP fun p => p.relationship = "related"

/-- Check 4: with at least one edge, warn when the `requires` fraction is
below one half, and when the `related` fraction is above one fifth. -/
def distributionWarnings (nodes : List Node) : List Warning :=
  if 0 < totalRels nodes then
    (if (requiresCount nodes : ℚ) / (totalRels nodes : ℚ) < 1 / 2 then
      [Warning.lowRequires ((requiresCount nodes : ℚ) / (totalRels nodes : ℚ))]
    else []) ++
    (if 1 / 5 < (relatedCount nodes : ℚ) / (totalRels nodes : ℚ) then
      [Warning.highRelated ((relatedCount nodes : ℚ) / (totalRels nodes : ℚ))]
    else [])
  else []

/-- Check 5's count: `requires` edges whose reasoning is empty or the
normalization default. -/
def missingReasoningCount (nodes : List Node) : Nat :=
  (allPrereqs nodes).countP fun p =>
    p.relationship = "requires" ∧ (p.reasoning = "" ∨ p.reasoning = "No reasoning provided")

/-- Check 5: one warning carrying the count, when it is nonzero. -/
def reasoningWarnings (nodes : List Node) : List Warning :=
  if 0 < missingReasoningCount nodes then [.missingReasoning (missingReasoningCount nodes)]
  else []

/-- The validator's return value. -/
structure ValidationResult where
  valid : Bool
  warnings : List Warning
deriving DecidableEq, Repr

/-- `_validate_pedagogical_soundness`: the five checks run in order, each
appending its warnings; `valid` iff no warning was produced. -/
def validatePedagogicalSoundness (nodes : List Node) : ValidationResult :=
  let warnings :=
    circularWarnings nodes ++ danglingWarnings nodes ++ depthWarnings nodes ++
      distributionWarnings nodes ++ reasoningWarnings nodes
  { valid := warnings.length = 0, warnings := warnings }

/-! ## JSON extraction (`_extract_json`)

The JSON values and parser below model the fragment of Python's `json.loads`
the pipeline exchanges with the oracle: `null`, booleans, integers, strings
with the single-character escapes, arrays and objects, with JSON whitespace.
(Floats and `\u` escapes are outside the modelled fragment.) -/

/-- The backtick character, out of which code fences are built. -/
def btick : Char := Char.ofNat 96

/-- The opening-brace character. -/
def lbrace : Char := Char.ofNat 123

/-- The closing-brace character. -/
def rbrace : Char := Char.ofNat 125

/-- A parsed JSON value. -/
inductive Json where
  | null
  | bool (b : Bool)
  | num (n : Int)
  | str (s : String)
  | arr (elems : List Json)
  | obj (fields : List (String × Json))

/-- JSON whitespace. -/
def jsonWs (c : Char) : Bool :=
  c = ' ' || c = '\n' || c = '\t' || c = '\r'

/-- Drop leading JSON whitespace. -/
def skipWs : List Char → List Char
  | [] => []
  | c :: rest => if jsonWs c then skipWs rest else c :: rest

/-- The single-character string escapes. -/
def escChar : Char → Option Char
  | '\"' => some '\"'
  | '\\' => some '\\'
  | '/' => some '/'
  | 'n' => some '\n'
  | 't' => some '\t'
  | 'r' => some '\r'
  | 'b' => some (Char.ofNat 8)
  | 'f' => some (Char.ofNat 12)
  | _ => none

/-- Parse the body of a JSON string (the opening quote already consumed),
returning the decoded characters and the input after the closing quote. -/
def parseStrChars : List Char → Option (List Char × List Char)
  | [] => none
  | c :: rest =>
    if c = '\"' then some ([], rest)
    else if c = '\\' then
      match rest with
      | [] => none
      | e :: rest2 =>
        match escChar e with
        | none => none
        | some c2 => (parseStrChars rest2).map fun pr => (c2 :: pr.1, pr.2)
    else (parseStrChars rest).map fun pr => (c :: pr.1, pr.2)

/-- Accumulate a run of decimal digits into a value. -/
def parseDigitsAux (acc : Nat) : List Char → Nat × List Char
  | [] => (acc, [])
  | c :: rest =>
    if c.isDigit then parseDigitsAux (acc * 10 + (c.toNat - 48)) rest else (acc, c :: rest)

/-- Parse a nonempty run of decimal digits. -/
def parseDigits : List Char → Option (Nat × List Char)
  | [] => none
  | c :: rest => if c.isDigit then some (parseDigitsAux 0 (c :: rest)) else none

/-- Parse an integer literal (optional minus sign, then digits). -/
def parseIntLit : List Char → Option (Int × List Char)
  | [] => none
  | c :: rest =>
    if c = '-' then (parseDigits rest).map fun pr => (-(pr.1 : Int), pr.2)
    else (parseDigits (c :: rest)).map fun pr => ((pr.1 : Int), pr.2)

mutual

/-- Parse one JSON value, returning it and the remaining input. -/
def parseValue : Nat → List Char → Option (Json × List Char)
  | 0, _ => none
  | fuel + 1, cs0 =>
    match skipWs cs0 with
    | [] => none
    | c :: rest =>
      if c = '\"' then (parseStrChars rest).map fun pr => (.str (String.mk pr.1), pr.2)
      else if c = 'n' ∧ rest.take 3 = ['u', 'l', 'l'] then some (.null, rest.drop 3)
      else if c = 't' ∧ rest.take 3 = ['r', 'u', 'e'] then some (.bool true, rest.drop 3)
      else if c = 'f' ∧ rest.take 4 = ['a', 'l', 's', 'e'] then some (.bool false, rest.drop 4)
      else if c = lbrace then parseObjRest fuel rest
      else if c = '[' then parseArrRest fuel rest
      else (parseIntLit (c :: rest)).map fun pr => (.num pr.1, pr.2)

/-- Parse the rest of an array (the `[` already consumed). -/
def parseArrRest : Nat → List Char → Option (Json × List Char)
  | 0, _ => none
  | fuel + 1, cs =>
    match skipWs cs with
    | [] => none
    | c :: rest =>
      if c = ']' then some (.arr [], rest)
      else (parseArrItems fuel (c :: rest)).map fun pr => (.arr pr.1, pr.2)

/-- Parse the comma-separated items of a nonempty array, through `]`. -/
def parseArrItems : Nat → List Char → Option (List Json × List Char)
  | 0, _ => none
  | fuel + 1, cs =>
    match parseValue fuel cs with
    | none => none
    | some (j, rest) =>
      match skipWs rest with
      | [] => none
      | c :: rest2 =>
        if c = ',' then (parseArrItems fuel rest2).map fun pr => (j :: pr.1, pr.2)
        else if c = ']' then some ([j], rest2)
        else none

/-- Parse the rest of an object (the `{` already consumed). -/
def parseObjRest : Nat → List Char → Option (Json × List Char)
  | 0, _ => none
  | fuel + 1, cs =>
    match skipWs cs with
    | [] => none
    | c :: rest =>
      if c = rbrace then some (.obj [], rest)
      else (parseObjItems fuel (c :: rest)).map fun pr => (.obj pr.1, pr.2)

/-- Parse the comma-separated `"key": value` pairs of a nonempty object,
through the closing brace. -/
def parseObjItems : Nat → List Char → Option (List (String × Json) × List Char)
  | 0, _ => none
  | fuel + 1, cs =>
    match skipWs cs with
    | [] => none
    | c :: rest =>
      if c = '\"' then
        match parseStrChars rest with
        | none => none
        | some (key, rest2) =>
          match skipWs rest2 with
          | [] => none
          | c2 :: rest3 =>
            if c2 = ':' then
              match parseValue fuel rest3 with
              | none => none
              | some (v, rest4) =>
                match skipWs rest4 with
                | [] => none
                | c3 :: rest5 =>
                  if c3 = ',' then
                    (parseObjItems fuel rest5).map fun pr =>
                      ((String.mk key, v) :: pr.1, pr.2)
                  else if c3 = rbrace then some ([(String.mk key, v)], rest5)
                  else none
            else none
      else none

end

/-- Model of `json.loads` on the fragment above: parse one value and require
only whitespace to remain. -/
def jsonParse (s : String) : Option Json :=
  match parseValue (2 * s.length + 2) s.data with
  | none => none
  | some (j, rest) => if skipWs rest = [] then some j else none

/-- The input after the first triple-backtick fence, when one occurs. -/
def afterFirstFence : List Char → Option (List Char)
  | [] => none
  | c :: rest =>
    if c = btick ∧ rest.take 2 = [btick, btick] then some (rest.drop 2)
    else afterFirstFence rest

/-- The characters strictly before the next triple-backtick fence, when a
complete closing fence occurs. -/
def contentTillFence : List Char → Option (List Char)
  | [] => none
  | c :: rest =>
    if c = btick ∧ rest.take 2 = [btick, btick] then some []
    else (contentTillFence rest).map fun l => c :: l

/-- The capture group of `re.search(r'<fence>(?:json)?\s*([\s\S]*?)\s*<fence>', text)`
(with `<fence>` the triple backtick), up to edge whitespace, which the caller
strips anyway: the content between the first fence (with a directly following
`json` tag consumed) and the next fence, or `none` when no complete fenced
block exists. -/
def extractFenced (s : String) : Option String :=
  match afterFirstFence s.data with
  | none => none
  | some afterOpen =>
    let afterTag :=
      if afterOpen.take 4 = ['j', 's', 'o', 'n'] then afterOpen.drop 4 else afterOpen
    (contentTillFence afterTag).map fun content => String.mk content

/-- Python whitespace as stripped by `str.strip()` (the ASCII part). -/
def pyWs (c : Char) : Bool :=
  c = ' ' || c = '\t' || c = '\n' || c = '\r' || c = Char.ofNat 11 || c = Char.ofNat 12

/-- Model of Python `str.strip()`: drop leading and trailing whitespace. -/
def strip (s : String) : String :=
  String.mk (((s.data.dropWhile pyWs).reverse.dropWhile pyWs).reverse)

/-- Whether `needle` is a prefix of `hay` (character lists). -/
def startsWithChars : List Char → List Char → Bool
  | [], _ => true
  | _ :: _, [] => false
  | a :: as, b :: bs => a = b && startsWithChars as bs

/-- Whether `needle` occurs contiguously inside `hay` (character lists). -/
def hasSubstring : List Char → List Char → Bool
  | needle, [] => needle.isEmpty
  | needle, c :: rest => startsWithChars needle (c :: rest) || hasSubstring needle rest

/-- Whether `hay` contains `needle` as a substring (Python `in` on `str`). -/
def strContains (hay needle : String) : Bool :=
  hasSubstring needle.data hay.data

/-- First index of character `c` (Python `str.find`). -/
def firstIdxOf (c : Char) : List Char → Option Nat
  | [] => none
  | d :: rest => if d = c then some 0 else (firstIdxOf c rest).map (· + 1)

/-- Last index of character `c` (Python `str.rfind`). -/
def lastIdxOf (c : Char) (cs : List Char) : Option Nat :=
  (firstIdxOf c cs.reverse).map fun i => cs.length - 1 - i

/-- The `try`/`except` tail of `_extract_json` on the already-stripped text:
direct parse, then the slice from the first opening brace through the last
closing brace (only when `rfind + 1 > find`); `none` models the re-raised
`JSONDecodeError`. -/
def parseWithFallback (t : String) : Option Json :=
  match jsonParse t with
  | some j => some j
  | none =>
    match firstIdxOf lbrace t.data, lastIdxOf rbrace t.data with
    | some i, some j =>
      if i ≤ j then jsonParse (String.mk ((t.data.drop i).take (j + 1 - i))) else none
    | _, _ => none

/-- `_extract_json`: replace the text by a fenced block's inner content when
one exists, strip, then parse with the brace-slice fallback. -/
def extractJson (s : String) : Option Json :=
  match extractFenced s with
  | some inner => parseWithFallback (strip inner)
  | none => parseWithFallback (strip s)

/-! ## Meta-summary compression dispatch (`_create_meta_summary`) -/

/-- The observable outcome of `TokenCompressionService.compress_text`, which
catches every adapter exception and reports it as `success = False` with the
original text, so the stage sees a total function. -/
structure CompressionOutcome where
  success : Bool
  compressed_text : String
deriving DecidableEq, Repr

/-- The compression dispatch of `_create_meta_summary`, starting from the
serialized batch-summaries document `combinedText` (the `json.dumps` output).
Returns the stage's result string paired with the list of
`(input, aggressiveness)` calls made to the compression adapter. -/
def createMetaSummary (compress : String → ℚ → CompressionOutcome)
    (combinedText : String) : String × List (String × ℚ) :=
  if 10000 < combinedText.length then
    let r := compress combinedText (2 / 5)
    if r.success then (r.compressed_text, [(combinedText, 2 / 5)])
    else (combinedText, [(combinedText, 2 / 5)])
  else (combinedText, [])

/-- A graph whose five edges hold two `requires` edges (a 40% `requires`
fraction). -/
def fortyPercentGraph : List Node :=
  [⟨"A", "A", 0,
      [⟨"B", "requires", "x"⟩, ⟨"B", "requires", "x"⟩, ⟨"B", "builds_on", "x"⟩,
        ⟨"B", "builds_on", "x"⟩, ⟨"B", "builds_on", "x"⟩]⟩,
    ⟨"B", "B", 1, []⟩]

/-- A graph whose four edges hold two `requires` edges (an exactly-50%
`requires` fraction). -/
def fiftyPercentGraph : List Node :=
  [⟨"A", "A", 0,
      [⟨"B", "requires", "x"⟩, ⟨"B", "requires", "x"⟩, ⟨"B", "builds_on", "x"⟩,
        ⟨"B", "builds_on", "x"⟩]⟩,
    ⟨"B", "B", 1, []⟩]

/-! ## Helper lemmas -/

/-- Normalization keeps exactly the string and object entries, sending each
through the spec's per-entry mapping. -/
lemma normalizePrerequisites_eq (l : List RawPrereq) :
    normalizePrerequisites l = (l.filter fun e => e.isStrOrObj).map specNormalizeEntry := by
  induction l with
  | nil => rfl
  | cons e rest ih =>
    cases e <;>
      simp [normalizePrerequisites, RawPrereq.isStrOrObj, specNormalizeEntry, ih,
        List.filter_cons]

/-- Re-normalizing already-normalized entries recovers them unchanged. -/
lemma normalizePrerequisites_map_toRaw (ps : List Prereq) :
    normalizePrerequisites (ps.map Prereq.toRaw) = ps := by
  induction ps with
  | nil => rfl
  | cons p rest ih => simp [Prereq.toRaw, normalizePrerequisites, ih]

/-- The length of a `filterMap` counts the entries mapped to `some`. -/
lemma length_filterMap_eq_countP (f : α → Option β) (l : List α) :
    (l.filterMap f).length = l.countP fun a => (f a).isSome := by
  induction l with
  | nil => rfl
  | cons a rest ih =>
    rw [List.filterMap_cons, List.countP_cons]
    cases h : f a <;> simp [h, ih]

/-- The validator's warning list is the concatenation of the five checks. -/
lemma mem_validate_warnings {nodes : List Node} {w : Warning} :
    w ∈ (validatePedagogicalSoundness nodes).warnings ↔
      w ∈ circularWarnings nodes ∨ w ∈ danglingWarnings nodes ∨
        w ∈ depthWarnings nodes ∨ w ∈ distributionWarnings nodes ∨
        w ∈ reasoningWarnings nodes := by
  simp [validatePedagogicalSoundness, List.mem_append, or_assoc]

/-- Check 1 only emits `circular` warnings. -/
lemma circularWarnings_shape {nodes : List Node} {w : Warning}
    (h : w ∈ circularWarnings nodes) : ∃ cs, w = .circular cs := by
  unfold circularWarnings at h
  split at h
  · simp at h
  · simp at h
    exact ⟨_, h⟩

/-- Check 2 only emits `dangling` warnings. -/
lemma danglingWarnings_shape {nodes : List Node} {w : Warning}
    (h : w ∈ danglingWarnings nodes) : ∃ a b, w = .dangling a b := by
  simp only [danglingWarnings, List.mem_flatMap, List.mem_filterMap] at h
  obtain ⟨n, _, p, _, hp⟩ := h
  unfold danglingCheck at hp
  split at hp
  · exact ⟨_, _, (Option.some_inj.mp hp).symm⟩
  · cases hp

/-- Check 3 only emits `depthViolation` warnings. -/
lemma depthWarnings_shape {nodes : List Node} {w : Warning}
    (h : w ∈ depthWarnings nodes) : ∃ a b c d, w = .depthViolation a b c d := by
  simp only [depthWarnings, List.mem_flatMap, List.mem_filterMap] at h
  obtain ⟨n, _, p, _, hp⟩ := h
  unfold depthCheck at hp
  split at hp
  · cases hp
  · split at hp
    · exact ⟨_, _, _, _, (Option.some_inj.mp hp).symm⟩
    · cases hp

/-- Check 4 only emits `lowRequires` and `highRelated` warnings. -/
lemma distributionWarnings_shape {nodes : List Node} {w : Warning}
    (h : w ∈ distributionWarnings nodes) :
    (∃ q, w = .lowRequires q) ∨ ∃ q, w = .highRelated q := by
  unfold distributionWarnings at h
  split at h
  · rcases List.mem_append.mp h with h1 | h2
    · split at h1
      · simp at h1
        exact Or.inl ⟨_, h1⟩
      · simp at h1
    · split at h2
      · simp at h2
        exact Or.inr ⟨_, h2⟩
      · simp at h2
  · simp at h

/-- Check 5 only emits `missingReasoning` warnings. -/
lemma reasoningWarnings_shape {nodes : List Node} {w : Warning}
    (h : w ∈ reasoningWarnings nodes) : ∃ c, w = .missingReasoning c := by
  unfold reasoningWarnings at h
  split at h
  · simp at h
    exact ⟨_, h⟩
  · simp at h

/-- Exactly when check 3's per-edge test fires, and with which payload. -/
lemma depthCheck_eq_some {nodes : List Node} {n : Node} {p : Prereq}
    {l1 : String} {d1 : Int} {l2 : String} {d2 : Int} :
    depthCheck nodes n p = some (Warning.depthViolation l1 d1 l2 d2) ↔
      p.relationship = "requires" ∧
        ∃ m, lookupNode nodes p.node_id = some m ∧ n.depth ≤ m.depth ∧
          n.label = l1 ∧ n.depth = d1 ∧ m.label = l2 ∧ m.depth = d2 := by
  unfold depthCheck
  cases hm : lookupNode nodes p.node_id with
  | none => simp
  | some m =>
    dsimp only
    split_ifs with hc
    · simp only [Option.some_inj, Warning.depthViolation.injEq, Option.some.injEq]
      constructor
      · rintro ⟨e1, e2, e3, e4⟩
        exact ⟨hc.1, m, rfl, hc.2, e1, e2, e3, e4⟩
      · rintro ⟨-, m2, hm2, -, e1, e2, e3, e4⟩
        cases hm2
        exact ⟨e1, e2, e3, e4⟩
    · constructor
      · intro h
        cases h
      · rintro ⟨hr, m2, hm2, hd, -⟩
        cases hm2
        exact absurd ⟨hr, hd⟩ hc

/-- The test of a conditional `some` is the test of its condition. -/
lemma isSome_ite {c : Prop} [Decidable c] (x : α) :
    (if c then some x else none).isSome = decide c := by
  split_ifs with h <;> simp [h]

/-- The Boolean form of check 3's per-edge test. -/
lemma depthCheck_isSome (nodes : List Node) (n : Node) (p : Prereq) :
    (depthCheck nodes n p).isSome =
      (decide (p.relationship = "requires") &&
        (lookupNode nodes p.node_id).any fun m => decide (n.depth ≤ m.depth)) := by
  unfold depthCheck
  cases hm : lookupNode nodes p.node_id with
  | none => simp [Option.any]
  | some m => rw [isSome_ite, Bool.decide_and]; simp [Option.any]

/-- Exactly when check 2's per-edge test fires, and with which payload. -/
lemma danglingCheck_eq_some {nodes : List Node} {n : Node} {p : Prereq}
    {a b : String} :
    danglingCheck nodes n p = some (Warning.dangling a b) ↔
      p.node_id ≠ "" ∧ (∀ m ∈ nodes, m.id ≠ p.node_id) ∧ n.id = a ∧ p.node_id = b := by
  unfold danglingCheck
  split_ifs with hc
  · simp only [Option.some_inj, Warning.dangling.injEq]
    constructor
    · rintro ⟨e1, e2⟩
      exact ⟨hc.1, hc.2, e1, e2⟩
    · rintro ⟨-, -, e1, e2⟩
      exact ⟨e1, e2⟩
  · constructor
    · intro h
      cases h
    · rintro ⟨h1, h2, -⟩
      exact hc ⟨h1, h2⟩

/-- The Boolean form of check 2's per-edge test. -/
lemma danglingCheck_isSome (nodes : List Node) (n : Node) (p : Prereq) :
    (danglingCheck nodes n p).isSome =
      (decide (p.node_id ≠ "") && decide (∀ m ∈ nodes, m.id ≠ p.node_id)) := by
  unfold danglingCheck
  rw [isSome_ite, Bool.decide_and]

/-- Summing per-node, per-edge check hits gives the flattened warning
count. -/
lemma flatMap_filterMap_length (f : Node → Prereq → Option Warning) :
    ∀ l : List Node,
      (l.flatMap fun n => n.prerequisites.filterMap (f n)).length =
        (l.map fun n => n.prerequisites.countP fun p => (f n p).isSome).sum := by
  intro l
  induction l with
  | nil => rfl
  | cons n rest ih => simp [List.flatMap_cons, ih, length_filterMap_eq_countP]

/-- Only check 3 contributes depth-violation warnings. -/
lemma countP_depth_validate (nodes : List Node) :
    (validatePedagogicalSoundness nodes).warnings.countP Warning.isDepthViolation =
      (depthWarnings nodes).length := by
  have hw : (validatePedagogicalSoundness nodes).warnings =
      circularWarnings nodes ++ danglingWarnings nodes ++ depthWarnings nodes ++
        distributionWarnings nodes ++ reasoningWarnings nodes := rfl
  rw [hw]
  simp only [List.countP_append]
  have c1 : (circularWarnings nodes).countP Warning.isDepthViolation = 0 :=
    List.countP_eq_zero.mpr fun w hw2 => by
      obtain ⟨cs, rfl⟩ := circularWarnings_shape hw2
      simp [Warning.isDepthViolation]
  have c2 : (danglingWarnings nodes).countP Warning.isDepthViolation = 0 :=
    List.countP_eq_zero.mpr fun w hw2 => by
      obtain ⟨a, b, rfl⟩ := danglingWarnings_shape hw2
      simp [Warning.isDepthViolation]
  have c3 : (depthWarnings nodes).countP Warning.isDepthViolation =
      (depthWarnings nodes).length :=
    List.countP_eq_length.mpr fun w hw2 => by
      obtain ⟨a, b, c, d, rfl⟩ := depthWarnings_shape hw2
      simp [Warning.isDepthViolation]
  have c4 : (distributionWarnings nodes).countP Warning.isDepthViolation = 0 :=
    List.countP_eq_zero.mpr fun w hw2 => by
      rcases distributionWarnings_shape hw2 with ⟨q, rfl⟩ | ⟨q, rfl⟩ <;>
        simp [Warning.isDepthViolation]
  have c5 : (reasoningWarnings nodes).countP Warning.isDepthViolation = 0 :=
    List.countP_eq_zero.mpr fun w hw2 => by
      obtain ⟨c, rfl⟩ := reasoningWarnings_shape hw2
      simp [Warning.isDepthViolation]
  rw [c1, c2, c3, c4, c5]
  omega

/-- Only check 2 contributes dangling-reference warnings. -/
lemma countP_dangling_validate (nodes : List Node) :
    (validatePedagogicalSoundness nodes).warnings.countP Warning.isDangling =
      (danglingWarnings nodes).length := by
  have hw : (validatePedagogicalSoundness nodes).warnings =
      circularWarnings nodes ++ danglingWarnings nodes ++ depthWarnings nodes ++
        distributionWarnings nodes ++ reasoningWarnings nodes := rfl
  rw [hw]
  simp only [List.countP_append]
  have c1 : (circularWarnings nodes).countP Warning.isDangling = 0 :=
    List.countP_eq_zero.mpr fun w hw2 => by
      obtain ⟨cs, rfl⟩ := circularWarnings_shape hw2
      simp [Warning.isDangling]
  have c2 : (danglingWarnings nodes).countP Warning.isDangling =
      (danglingWarnings nodes).length :=
    List.countP_eq_length.mpr fun w hw2 => by
      obtain ⟨a, b, rfl⟩ := danglingWarnings_shape hw2
      simp [Warning.isDangling]
  have c3 : (depthWarnings nodes).countP Warning.isDangling = 0 :=
    List.countP_eq_zero.mpr fun w hw2 => by
      obtain ⟨a, b, c, d, rfl⟩ := depthWarnings_shape hw2
      simp [Warning.isDangling]
  have c4 : (distributionWarnings nodes).countP Warning.isDangling = 0 :=
    List.countP_eq_zero.mpr fun w hw2 => by
      rcases distributionWarnings_shape hw2 with ⟨q, rfl⟩ | ⟨q, rfl⟩ <;>
        simp [Warning.isDangling]
  have c5 : (reasoningWarnings nodes).countP Warning.isDangling = 0 :=
    List.countP_eq_zero.mpr fun w hw2 => by
      obtain ⟨c, rfl⟩ := reasoningWarnings_shape hw2
      simp [Warning.isDangling]
  rw [c1, c2, c3, c4, c5]
  omega

/-- A `lowRequires` warning appears exactly when the edge set is nonempty
and its `requires` fraction is below one half. -/
lemma lowRequires_mem_iff (nodes : List Node) :
    (∃ q, Warning.lowRequires q ∈ (validatePedagogicalSoundness nodes).warnings) ↔
      0 < totalRels nodes ∧
        (requiresCount nodes : ℚ) / (totalRels nodes : ℚ) < 1 / 2 := by
  constructor
  · rintro ⟨q, hq⟩
    rcases mem_validate_warnings.mp hq with h1 | h2 | h3 | h4 | h5
    · obtain ⟨cs, hw⟩ := circularWarnings_shape h1
      simp at hw
    · obtain ⟨a, b, hw⟩ := danglingWarnings_shape h2
      simp at hw
    · obtain ⟨a, b, c, d, hw⟩ := depthWarnings_shape h3
      simp at hw
    · unfold distributionWarnings at h4
      split_ifs at h4 with hpos hreq hrel hrel'
      all_goals first
        | exact ⟨hpos, hreq⟩
        | simp at h4
    · obtain ⟨c, hw⟩ := reasoningWarnings_shape h5
      simp at hw
  · rintro ⟨hpos, hlt⟩
    refine ⟨(requiresCount nodes : ℚ) / (totalRels nodes : ℚ),
      mem_validate_warnings.mpr (Or.inr (Or.inr (Or.inr (Or.inl ?_))))⟩
    unfold distributionWarnings
    rw [if_pos hpos, if_pos hlt]
    exact List.mem_append_left _ (List.mem_singleton_self _)

/-- A `highRelated` warning appears exactly when the edge set is nonempty
and its `related` fraction is above one fifth. -/
lemma highRelated_mem_iff (nodes : List Node) :
    (∃ q, Warning.highRelated q ∈ (validatePedagogicalSoundness nodes).warnings) ↔
      0 < totalRels nodes ∧
        1 / 5 < (relatedCount nodes : ℚ) / (totalRels nodes : ℚ) := by
  constructor
  · rintro ⟨q, hq⟩
    rcases mem_validate_warnings.mp hq with h1 | h2 | h3 | h4 | h5
    · obtain ⟨cs, hw⟩ := circularWarnings_shape h1
      simp at hw
    · obtain ⟨a, b, hw⟩ := danglingWarnings_shape h2
      simp at hw
    · obtain ⟨a, b, c, d, hw⟩ := depthWarnings_shape h3
      simp at hw
    · unfold distributionWarnings at h4
      split_ifs at h4 with hpos hreq hrel hrel'
      all_goals first
        | exact ⟨hpos, hrel⟩
        | exact ⟨hpos, hrel'⟩
        | simp at h4
    · obtain ⟨c, hw⟩ := reasoningWarnings_shape h5
      simp at hw
  · rintro ⟨hpos, hlt⟩
    refine ⟨(relatedCount nodes : ℚ) / (totalRels nodes : ℚ),
      mem_validate_warnings.mpr (Or.inr (Or.inr (Or.inr (Or.inl ?_))))⟩
    unfold distributionWarnings
    rw [if_pos hpos, if_pos hlt]
    exact List.mem_append_right _ (List.mem_singleton_self _)

/-! ## Claim theorems -/

/-- C6: for inputs made of bare strings and objects only, prerequisite
normalization maps every bare string `s` to
`{node_id := s, relationship := "requires",
reasoning := "Legacy prerequisite - relationship inferred"}` and every object
field-for-field (`node_id`, falling back to `id`, as the target key;
`relationship` defaulting to `requires`; `reasoning` defaulting to
`No reasoning provided`), preserving order and performing no deduplication:
the output is exactly the entrywise spec mapping of the input. -/
theorem normalize_maps_entries (l : List RawPrereq)
    (h : ∀ e ∈ l, e.isStrOrObj = true) :
    normalizePrerequisites l = l.map specNormalizeEntry := by
  rw [normalizePrerequisites_eq, List.filter_eq_self.mpr h]

/-- Witness for C6 at a concrete list (with a duplicate, which survives). -/
theorem normalize_maps_entries_witness :
    (∀ e ∈ [RawPrereq.str "a", RawPrereq.obj none (some "x") none none, RawPrereq.str "a"],
        e.isStrOrObj = true) ∧
      normalizePrerequisites
          [RawPrereq.str "a", RawPrereq.obj none (some "x") none none, RawPrereq.str "a"] =
        [RawPrereq.str "a", RawPrereq.obj none (some "x") none none,
          RawPrereq.str "a"].map specNormalizeEntry :=
  ⟨by decide, normalize_maps_entries _ (by decide)⟩

/-- C7: prerequisite normalization is idempotent. Feeding the normalized
output (re-read as the raw dicts it denotes in Python, via `Prereq.toRaw`)
back through normalization returns the same list, element for element. -/
theorem normalize_idempotent (l : List RawPrereq) :
    normalizePrerequisites ((normalizePrerequisites l).map Prereq.toRaw) =
      normalizePrerequisites l :=
  normalizePrerequisites_map_toRaw _

/-- C10: normalization silently drops every entry that is neither a string
nor an object: the output is the entrywise spec mapping of just the
string-or-object entries, in order, and when at least one entry was dropped
the output is strictly shorter than the input. -/
theorem normalize_drops_nonstring_nonobject (l : List RawPrereq)
    (h : ∃ e ∈ l, e.isStrOrObj = false) :
    normalizePrerequisites l = (l.filter fun e => e.isStrOrObj).map specNormalizeEntry ∧
      (normalizePrerequisites l).length < l.length := by
  refine ⟨normalizePrerequisites_eq l, ?_⟩
  rw [normalizePrerequisites_eq, List.length_map]
  exact List.length_filter_lt_length_iff_exists.mpr
    (by obtain ⟨e, he, hne⟩ := h; exact ⟨e, he, by simp [hne]⟩)

/-- Witness for C10: a list holding a number-like entry loses it. -/
theorem normalize_drops_nonstring_nonobject_witness :
    (∃ e ∈ [RawPrereq.str "a", RawPrereq.other], e.isStrOrObj = false) ∧
      (normalizePrerequisites [RawPrereq.str "a", RawPrereq.other] =
          ([RawPrereq.str "a", RawPrereq.other].filter fun e => e.isStrOrObj).map
            specNormalizeEntry ∧
        (normalizePrerequisites [RawPrereq.str "a", RawPrereq.other]).length <
          ([RawPrereq.str "a", RawPrereq.other] : List RawPrereq).length) :=
  ⟨by decide, normalize_drops_nonstring_nonobject _ (by decide)⟩

/-- Concatenating the batches in order rebuilds the input. -/
lemma createBatches_flatten {α : Type _} (B : Nat) (l : List α) :
    (createBatches B l).flatten = l := by
  induction l using createBatches.induct B with
  | case1 => simp [createBatches]
  | case2 m rest ih =>
    rw [createBatches]
    simp [List.flatten_cons, ih, List.take_append_drop]

/-- The batch count is the ceiling of the material count over the batch
size. -/
lemma createBatches_length {α : Type _} (B : Nat) (hB : 1 ≤ B) (l : List α) :
    (createBatches B l).length = (l.length + B - 1) / B := by
  induction l using createBatches.induct B with
  | case1 =>
    simp only [createBatches, List.length_nil]
    rw [Nat.div_eq_of_lt (by omega)]
  | case2 m rest ih =>
    rw [createBatches]
    simp only [List.length_cons, ih, List.length_drop]
    have hBpos : 0 < B := hB
    rcases le_or_lt (B - 1) rest.length with hle | hlt
    · have h1 : rest.length - (B - 1) + B - 1 = rest.length := by omega
      have h2 : rest.length + 1 + B - 1 = rest.length + B := by omega
      rw [h1, h2, Nat.add_div_right _ hBpos]
    · have h1 : rest.length - (B - 1) = 0 := by omega
      have h2 : rest.length + 1 + B - 1 = rest.length + B := by omega
      rw [h1, h2, Nat.add_div_right _ hBpos]
      rw [Nat.div_eq_of_lt (by omega), Nat.div_eq_of_lt (by omega)]

/-- No batch exceeds the batch size. -/
lemma createBatches_size_le {α : Type _} (B : Nat) (hB : 1 ≤ B) (l : List α) :
    ∀ b ∈ createBatches B l, b.length ≤ B := by
  induction l using createBatches.induct B with
  | case1 => simp [createBatches]
  | case2 m rest ih =>
    rw [createBatches]
    intro b hb
    rcases List.mem_cons.mp hb with hfirst | hrest
    · subst hfirst
      simp only [List.length_cons, List.length_take]
      omega
    · exact ih b hrest

/-- Every batch but the last has exactly the batch size. -/
lemma createBatches_full {α : Type _} (B : Nat) (hB : 1 ≤ B) (l : List α) :
    ∀ b ∈ (createBatches B l).dropLast, b.length = B := by
  induction l using createBatches.induct B with
  | case1 => simp [createBatches]
  | case2 m rest ih =>
    rw [createBatches]
    cases hrec : createBatches B (rest.drop (B - 1)) with
    | nil => simp
    | cons x xs =>
      rw [List.dropLast_cons_of_ne_nil (by simp)]
      intro b hb
      rcases List.mem_cons.mp hb with hfirst | hrest
      · subst hfirst
        have hne : rest.drop (B - 1) ≠ [] := by
          intro hnil
          rw [hnil] at hrec
          simp [createBatches] at hrec
        have hlen : B - 1 ≤ rest.length := by
          by_contra hcon
          exact hne (List.drop_eq_nil_of_le (by omega))
        simp only [List.length_cons, List.length_take]
        omega
      · rw [← hrec] at hrest
        exact ih b hrest

/-- C3: for any materials list and any batch size `B ≥ 1`, batching yields
`⌈N/B⌉` batches, every batch has at most `B` elements, every batch except
possibly the final one has exactly `B` elements, and concatenating the
batches in order reconstructs the input exactly. -/
theorem batching_partitions {α : Type _} (B : Nat) (l : List α) (hB : 1 ≤ B) :
    (createBatches B l).length = (l.length + B - 1) / B ∧
      (∀ b ∈ createBatches B l, b.length ≤ B) ∧
      (∀ b ∈ (createBatches B l).dropLast, b.length = B) ∧
      (createBatches B l).flatten = l :=
  ⟨createBatches_length B hB l, createBatches_size_le B hB l,
    createBatches_full B hB l, createBatches_flatten B l⟩

/-- Witness for C3 at batch size 2 over five materials. -/
theorem batching_partitions_witness :
    (1 : Nat) ≤ 2 ∧
      ((createBatches 2 [0, 1, 2, 3, 4]).length = (([0, 1, 2, 3, 4] : List Nat).length + 2 - 1) / 2 ∧
        (∀ b ∈ createBatches 2 [0, 1, 2, 3, 4], b.length ≤ 2) ∧
        (∀ b ∈ (createBatches 2 [0, 1, 2, 3, 4]).dropLast, b.length = 2) ∧
        (createBatches 2 ([0, 1, 2, 3, 4] : List Nat)).flatten = [0, 1, 2, 3, 4]) :=
  ⟨by decide, batching_partitions 2 [0, 1, 2, 3, 4] (by decide)⟩

/-- C9: the meta-summary stage returns the serialized batch-summaries
document unchanged whenever its length is at most 10,000 characters (calling
the compression adapter not at all); when the length exceeds 10,000 it calls
the adapter exactly once, with aggressiveness `0.4 = 2/5`, and returns the
compressed text when the adapter reports success and the uncompressed
serialization verbatim when it reports failure — the stage itself returns a
result in every case. -/
theorem meta_summary_compression (compress : String → ℚ → CompressionOutcome)
    (t : String) :
    (t.length ≤ 10000 → createMetaSummary compress t = (t, [])) ∧
      (10000 < t.length →
        (createMetaSummary compress t).2 = [(t, 2 / 5)] ∧
          ((compress t (2 / 5)).success = true →
            (createMetaSummary compress t).1 = (compress t (2 / 5)).compressed_text) ∧
          ((compress t (2 / 5)).success = false →
            (createMetaSummary compress t).1 = t)) := by
  constructor
  · intro h
    simp [createMetaSummary, Nat.not_lt.mpr h]
  · intro h
    have h2 : (createMetaSummary compress t).2 = [(t, 2 / 5)] := by
      simp only [createMetaSummary, if_pos h]
      cases hs : (compress t (2 / 5)).success <;> simp [hs]
    refine ⟨h2, fun hs => ?_, fun hs => ?_⟩ <;> simp [createMetaSummary, if_pos h, hs]

/-- Witness for C9: a short document passes through untouched; an 10,001
character document is handed to a failing adapter once and comes back
verbatim. -/
theorem meta_summary_compression_witness :
    (("ab" : String).length ≤ 10000 ∧
      createMetaSummary (fun _ _ => ⟨true, "z"⟩) "ab" = ("ab", [])) ∧
      (10000 < (String.mk (List.replicate 10001 'a')).length ∧
        (createMetaSummary (fun _ _ => ⟨false, "z"⟩)
            (String.mk (List.replicate 10001 'a'))).1 =
          String.mk (List.replicate 10001 'a')) := by
  have hlong : 10000 < (String.mk (List.replicate 10001 'a')).length := by
    rw [String.length_mk, List.length_replicate]
    omega
  exact ⟨⟨by decide, (meta_summary_compression (fun _ _ => ⟨true, "z"⟩) "ab").1 (by decide)⟩,
    ⟨hlong,
      ((meta_summary_compression (fun _ _ => ⟨false, "z"⟩) _).2 hlong).2.2 rfl⟩⟩

/-- C5: `_extract_json` obeys the documented precedence: when the reply holds
a complete fenced code block only the block's inner content is considered,
otherwise the whole reply; the considered text is stripped and parsed
directly, falling back to the first-brace/last-brace slice; when everything
fails the helper propagates the error (`none`) instead of producing a
default. Concretely: a fenced block holding valid JSON yields that JSON even
with a bare object outside the fence, a bare JSON object amid prose is
recovered by slicing, and unparseable garbage yields `none`. -/
theorem extract_json_precedence :
    (∀ s inner, extractFenced s = some inner →
      extractJson s = parseWithFallback (strip inner)) ∧
      (∀ s, extractFenced s = none → extractJson s = parseWithFallback (strip s)) ∧
      extractJson "Here:\n```json\n\x7b\"nodes\": []\x7d\n```\nDone." =
        some (.obj [("nodes", .arr [])]) ∧
      extractJson "```\x7b\"in\": 2\x7d``` and outside \x7b\"out\": 3\x7d" =
        some (.obj [("in", .num 2)]) ∧
      extractJson "Sure! The answer is \x7b\"a\": 1\x7d as requested." =
        some (.obj [("a", .num 1)]) ∧
      extractJson "no json here at all" = none := by
  refine ⟨?_, ?_, rfl, rfl, rfl, rfl⟩
  · intro s inner h
    simp [extractJson, h]
  · intro s h
    simp [extractJson, h]

/-- Witness for C5's conditional clauses at concrete replies (one with a
fence, one without). -/
theorem extract_json_precedence_witness :
    extractFenced "```x```" = some "x" ∧
      extractJson "```x```" = parseWithFallback (strip "x") ∧
      extractFenced "plain" = none ∧
      extractJson "plain" = parseWithFallback (strip "plain") :=
  ⟨rfl, extract_json_precedence.1 "```x```" "x" rfl, rfl,
    extract_json_precedence.2.1 "plain" rfl⟩

/-- C2: for every node set, a depth-violation warning naming labels `l1`/`l2`
and depths `d1`/`d2` is reported exactly for the `requires` prerequisite
edges whose referenced prerequisite resolves in the node map with depth
greater than or equal to the dependent's depth (so `builds_on`/`related`
edges and strictly-smaller prerequisite depths never produce one), and the
total number of depth-violation warnings equals the number of such violating
edges -- exactly one per edge. -/
theorem depth_monotonicity_check (nodes : List Node) (l1 : String) (d1 : Int)
    (l2 : String) (d2 : Int) :
    (Warning.depthViolation l1 d1 l2 d2 ∈ (validatePedagogicalSoundness nodes).warnings ↔
      ∃ n ∈ nodes, ∃ p ∈ n.prerequisites, p.relationship = "requires" ∧
        ∃ m, lookupNode nodes p.node_id = some m ∧ n.depth ≤ m.depth ∧
          n.label = l1 ∧ n.depth = d1 ∧ m.label = l2 ∧ m.depth = d2) ∧
      (validatePedagogicalSoundness nodes).warnings.countP Warning.isDepthViolation =
        (nodes.map fun n => n.prerequisites.countP fun p =>
          decide (p.relationship = "requires") &&
            (lookupNode nodes p.node_id).any fun m => decide (n.depth ≤ m.depth)).sum := by
  constructor
  · constructor
    · intro h
      rcases mem_validate_warnings.mp h with h1 | h2 | h3 | h4 | h5
      · obtain ⟨cs, hw⟩ := circularWarnings_shape h1
        simp at hw
      · obtain ⟨a, b, hw⟩ := danglingWarnings_shape h2
        simp at hw
      · simp only [depthWarnings, List.mem_flatMap, List.mem_filterMap] at h3
        obtain ⟨n, hn, p, hp, hcheck⟩ := h3
        rw [depthCheck_eq_some] at hcheck
        exact ⟨n, hn, p, hp, hcheck.1, hcheck.2⟩
      · rcases distributionWarnings_shape h4 with ⟨q, hw⟩ | ⟨q, hw⟩ <;> simp at hw
      · obtain ⟨c, hw⟩ := reasoningWarnings_shape h5
        simp at hw
    · rintro ⟨n, hn, p, hp, hr, hm⟩
      apply mem_validate_warnings.mpr
      refine Or.inr (Or.inr (Or.inl ?_))
      simp only [depthWarnings, List.mem_flatMap, List.mem_filterMap]
      exact ⟨n, hn, p, hp, depthCheck_eq_some.mpr ⟨hr, hm⟩⟩
  · rw [countP_depth_validate]
    unfold depthWarnings
    rw [flatMap_filterMap_length (depthCheck nodes)]
    simp only [depthCheck_isSome]

/-- C8 counterexample: a node whose prerequisite edge carries the empty
`node_id` -- an id no node in the set bears -- produces zero
dangling-reference warnings, because the check first tests the id for
truthiness; the claim as stated predicts exactly one. -/
theorem dangling_reference_claim_counterexample :
    (∃ n ∈ ([⟨"X", "X", 0, [⟨"", "requires", "why"⟩]⟩] : List Node),
      ∃ p ∈ n.prerequisites,
        ∀ m ∈ ([⟨"X", "X", 0, [⟨"", "requires", "why"⟩]⟩] : List Node),
          m.id ≠ p.node_id) ∧
      (validatePedagogicalSoundness
          [⟨"X", "X", 0, [⟨"", "requires", "why"⟩]⟩]).warnings.countP
        Warning.isDangling = 0 := by
  refine ⟨by decide, ?_⟩
  rw [countP_dangling_validate]
  rfl

/-- C8 (amended: the per-edge test additionally requires a truthy, i.e.
non-empty, `node_id`): for every node set, a dangling-reference warning
citing node id `a` and missing reference `b` is reported exactly for the
prerequisite edges with a non-empty `node_id` that is not the id of any node
in the set, and the total number of dangling warnings equals the number of
such edges -- exactly one per edge, none for resolving or empty ids. -/
theorem dangling_reference_check (nodes : List Node) (a b : String) :
    (Warning.dangling a b ∈ (validatePedagogicalSoundness nodes).warnings ↔
      ∃ n ∈ nodes, ∃ p ∈ n.prerequisites, p.node_id ≠ "" ∧
        (∀ m ∈ nodes, m.id ≠ p.node_id) ∧ n.id = a ∧ p.node_id = b) ∧
      (validatePedagogicalSoundness nodes).warnings.countP Warning.isDangling =
        (nodes.map fun n => n.prerequisites.countP fun p =>
          decide (p.node_id ≠ "") && decide (∀ m ∈ nodes, m.id ≠ p.node_id)).sum := by
  constructor
  · constructor
    · intro h
      rcases mem_validate_warnings.mp h with h1 | h2 | h3 | h4 | h5
      · obtain ⟨cs, hw⟩ := circularWarnings_shape h1
        simp at hw
      · simp only [danglingWarnings, List.mem_flatMap, List.mem_filterMap] at h2
        obtain ⟨n, hn, p, hp, hcheck⟩ := h2
        rw [danglingCheck_eq_some] at hcheck
        exact ⟨n, hn, p, hp, hcheck⟩
      · obtain ⟨a2, b2, c2, d2, hw⟩ := depthWarnings_shape h3
        simp at hw
      · rcases distributionWarnings_shape h4 with ⟨q, hw⟩ | ⟨q, hw⟩ <;> simp at hw
      · obtain ⟨c, hw⟩ := reasoningWarnings_shape h5
        simp at hw
    · rintro ⟨n, hn, p, hp, hne, hmiss, he1, he2⟩
      apply mem_validate_warnings.mpr
      refine Or.inr (Or.inl ?_)
      simp only [danglingWarnings, List.mem_flatMap, List.mem_filterMap]
      exact ⟨n, hn, p, hp, danglingCheck_eq_some.mpr ⟨hne, hmiss, he1, he2⟩⟩
  · rw [countP_dangling_validate]
    unfold danglingWarnings
    rw [flatMap_filterMap_length (danglingCheck nodes)]
    simp only [danglingCheck_isSome]

/-- C4: with at least one prerequisite edge, the validator emits a
low-requires warning exactly when the `requires` fraction of all edges is
strictly below one half, and a high-related warning exactly when the
`related` fraction is strictly above one fifth; a 40%-`requires` graph
warns, an exactly-50% graph does not, and an edgeless node set emits
neither warning. -/
theorem relationship_distribution_check (nodes : List Node) :
    ((∃ q, Warning.lowRequires q ∈ (validatePedagogicalSoundness nodes).warnings) ↔
      0 < totalRels nodes ∧
        (requiresCount nodes : ℚ) / (totalRels nodes : ℚ) < 1 / 2) ∧
      ((∃ q, Warning.highRelated q ∈ (validatePedagogicalSoundness nodes).warnings) ↔
        0 < totalRels nodes ∧
          1 / 5 < (relatedCount nodes : ℚ) / (totalRels nodes : ℚ)) ∧
      (∃ q, Warning.lowRequires q ∈
        (validatePedagogicalSoundness fortyPercentGraph).warnings) ∧
      (∀ q, Warning.lowRequires q ∉
        (validatePedagogicalSoundness fiftyPercentGraph).warnings) ∧
      (∀ q, Warning.lowRequires q ∉ (validatePedagogicalSoundness []).warnings) ∧
      (∀ q, Warning.highRelated q ∉ (validatePedagogicalSoundness []).warnings) := by
  refine ⟨lowRequires_mem_iff nodes, highRelated_mem_iff nodes, ?_, ?_, ?_, ?_⟩
  · apply (lowRequires_mem_iff fortyPercentGraph).mpr
    refine ⟨by decide, ?_⟩
    rw [show requiresCount fortyPercentGraph = 2 from rfl,
      show totalRels fortyPercentGraph = 5 from rfl]
    norm_num
  · intro q hq
    have h := (lowRequires_mem_iff fiftyPercentGraph).mp ⟨q, hq⟩
    rw [show requiresCount fiftyPercentGraph = 2 from rfl,
      show totalRels fiftyPercentGraph = 4 from rfl] at h
    norm_num at h
  · intro q hq
    have h := (lowRequires_mem_iff []).mp ⟨q, hq⟩
    rw [show totalRels [] = 0 from rfl] at h
    exact absurd h.1 (by omega)
  · intro q hq
    have h := (highRelated_mem_iff []).mp ⟨q, hq⟩
    rw [show totalRels [] = 0 from rfl] at h
    exact absurd h.1 (by omega)

/-- C1: on the three-node triangle `A -> B -> C -> A` (each edge stored as a
prerequisite on the dependent node), whatever the relationship types,
reasonings and depths on the edges, the validator reports a cycle warning
whose recorded path mentions all three node identifiers; with the `C -> A`
edge removed it reports no cycle warning at all. The traversal follows every
prerequisite edge regardless of relationship type. -/
theorem cycle_detection_triangle (r1 r2 r3 s1 s2 s3 : String) (d1 d2 d3 : Int) :
    (∃ cs, Warning.circular cs ∈ (validatePedagogicalSoundness
          [⟨"A", "A", d1, [⟨"B", r1, s1⟩]⟩, ⟨"B", "B", d2, [⟨"C", r2, s2⟩]⟩,
            ⟨"C", "C", d3, [⟨"A", r3, s3⟩]⟩]).warnings ∧
        ∃ path ∈ cs, strContains path "A" = true ∧ strContains path "B" = true ∧
          strContains path "C" = true) ∧
      ∀ cs, Warning.circular cs ∉ (validatePedagogicalSoundness
          [⟨"A", "A", d1, [⟨"B", r1, s1⟩]⟩, ⟨"B", "B", d2, [⟨"C", r2, s2⟩]⟩,
            ⟨"C", "C", d3, []⟩]).warnings := by
  constructor
  · have hcyc : detectCycles
        [⟨"A", "A", d1, [⟨"B", r1, s1⟩]⟩, ⟨"B", "B", d2, [⟨"C", r2, s2⟩]⟩,
          ⟨"C", "C", d3, [⟨"A", r3, s3⟩]⟩] = ["A -> B -> C -> A"] := rfl
    refine ⟨["A -> B -> C -> A"],
      mem_validate_warnings.mpr (Or.inl ?_), "A -> B -> C -> A", ?_, rfl, rfl, rfl⟩
    · unfold circularWarnings
      rw [hcyc]
      simp
    · simp
  · intro cs hmem
    have hacy : detectCycles
        [⟨"A", "A", d1, [⟨"B", r1, s1⟩]⟩, ⟨"B", "B", d2, [⟨"C", r2, s2⟩]⟩,
          ⟨"C", "C", d3, []⟩] = [] := rfl
    rcases mem_validate_warnings.mp hmem with h1 | h2 | h3 | h4 | h5
    · unfold circularWarnings at h1
      rw [hacy] at h1
      simp at h1
    · obtain ⟨a, b, hw⟩ := danglingWarnings_shape h2
      simp at hw
    · obtain ⟨a, b, c, d, hw⟩ := depthWarnings_shape h3
      simp at hw
    · rcases distributionWarnings_shape h4 with ⟨q, hw⟩ | ⟨q, hw⟩ <;> simp at hw
    · obtain ⟨c, hw⟩ := reasoningWarnings_shape h5
      simp at hw

end LearningPath
